import Mathlib

/-!
Verification development for a client-side RAG (retrieval-augmented generation)
engine: text chunking (utils/fileParser.ts), embedding client with retry and
batch embedding, cosine-similarity retrieval (services/geminiService.ts), an
owner-partitioned document/vector store (services/db.ts), and the ingestion
pipeline that orchestrates them (App.tsx, handleFilesSelected).

Modelling conventions:
* JavaScript numbers are modelled as rationals (ℚ).  A number that may be NaN
  is modelled as `Option ℚ`, with `none` standing for NaN/undefined.
* `Math.sqrt` is modelled by `ratSqrt`, which is exact on perfect squares of
  rationals and returns an arbitrary positive value on other positive inputs;
  the claims proved here depend only on exact squares and on the sign of the
  result.
* IndexedDB object stores are modelled as lists of records; `put` replaces the
  record with the same key or appends, `delete` removes every record with the
  given key (keys are unique in a keyed store), and index cursor iteration is
  modelled by structural recursion over the list.
* The external embedding API is modelled by a function `Nat → ApiOutcome`
  giving the outcome of each successive request of one `generateEmbedding`
  call; `setTimeout` backoff delays are collected into an output trace.
* The unbounded `while` loop of the chunker is modelled with explicit fuel
  (`chunkLoop`); `none` means the loop did not finish within the given fuel,
  and divergence is expressed as returning `none` for every fuel value.
-/

namespace RagCore

/-- Document lifecycle status (types.ts: 'processing' | 'ready' | 'error'). -/
inductive DocStatus where
  | processing
  | ready
  | error
deriving DecidableEq

/-- types.ts `FileDocument`. -/
structure FileDocument where
  id : String
  ownerId : String
  name : String
  type : String
  content : String
  status : DocStatus
  tokenCount : Option Nat
  version : Nat
  timestamp : Nat
deriving DecidableEq

/-- types.ts `TextChunk`; `embedding` is absent until the chunk is embedded. -/
structure TextChunk where
  id : String
  documentId : String
  documentName : String
  text : String
  embedding : Option (List ℚ)
deriving DecidableEq

/-- types.ts `SourceCitation`.  `relevanceScore` is a JS number that can in
principle be NaN, hence `Option ℚ`. -/
structure SourceCitation where
  documentName : String
  snippet : String
  relevanceScore : Option ℚ
deriving DecidableEq

/-- The two IndexedDB object stores of db.ts that the core operates on:
`documents` (keyed by `id`) and `vectors` (keyed by chunk `id`). -/
structure Store where
  documents : List FileDocument
  vectors : List TextChunk
deriving DecidableEq

/-! ### Chunker (utils/fileParser.ts, `chunkText`) -/

/-- Whitespace as matched by the JS regex `\s` (core ASCII cases). -/
def isWs (c : Char) : Bool :=
  c = ' ' || c = '\t' || c = '\n' || c = '\r' || c = '\x0b' || c = '\x0c'

/-- `text.replace(/\s+/g, ' ')`: every maximal whitespace run becomes one
space. -/
def collapseWs : List Char → List Char
  | [] => []
  | [c] => if isWs c then [' '] else [c]
  | c :: d :: rest =>
    if isWs c then
      if isWs d then collapseWs (d :: rest)
      else ' ' :: collapseWs (d :: rest)
    else c :: collapseWs (d :: rest)

/-- `String.prototype.trim`: strip whitespace from both ends. -/
def trimEnds (l : List Char) : List Char :=
  ((l.dropWhile isWs).reverse.dropWhile isWs).reverse

/-- The cleanup in `chunkText`: `text.replace(/\s+/g, ' ').trim()`. -/
def normalize (l : List Char) : List Char :=
  trimEnds (collapseWs l)

/-- Chunk id `${docId}-${chunks.length}`. -/
def chunkId (docId : String) (ord : Nat) : String :=
  docId ++ "-" ++ toString ord

/-- One emitted chunk record of `chunkText` (embedding unset). -/
def mkChunk (docId docName : String) (ord : Nat) (text : List Char) : TextChunk :=
  { id := chunkId docId ord
    documentId := docId
    documentName := docName
    text := String.mk text
    embedding := none }

/-- The `while (start < cleanText.length)` loop of `chunkText`, with explicit
fuel.  `start` advances by `chunkSize - overlap` (the source never validates
`overlap < chunkSize`, so with `overlap ≥ chunkSize` the loop never
terminates); `none` means the loop did not finish within `fuel` iterations. -/
def chunkLoop (clean : List Char) (docId docName : String) (chunkSize overlap : Nat) :
    Nat → Nat → Nat → Option (List TextChunk)
  | 0, _, _ => none
  | fuel + 1, start, ord =>
    if start < clean.length then
      match chunkLoop clean docId docName chunkSize overlap fuel
          (start + (chunkSize - overlap)) (ord + 1) with
      | none => none
      | some cs =>
        some (mkChunk docId docName ord
          ((clean.drop start).take (min (start + chunkSize) clean.length - start)) :: cs)
    else some []

/-- utils/fileParser.ts `chunkText`.  Fuel `clean.length + 1` is sufficient for
every terminating run (proved below for `overlap < chunkSize`); `none` means
the source loop diverges at this input. -/
def chunkText (text : String) (docId docName : String)
    (chunkSize overlap : Nat) : Option (List TextChunk) :=
  let clean := normalize text.data
  chunkLoop clean docId docName chunkSize overlap (clean.length + 1) 0 0

/-! ### Embedding client (services/geminiService.ts, `generateEmbedding`,
`embedChunks`) -/

/-- Outcome of one request to the embedding API, as classified by the catch
block of `generateEmbedding`: a response carrying values, a response with no
embedding (the in-try `throw` is caught and, lacking the 500/INTERNAL marks,
rethrown), a transient 500/INTERNAL failure, and a terminal failure. -/
inductive ApiOutcome where
  | ok (values : List ℚ)
  | okNoEmbedding
  | errTransient
  | errTerminal
deriving DecidableEq

/-- The error finally thrown out of `generateEmbedding`. -/
inductive EmbedError where
  | emptyInput
  | noEmbedding
  | transient
  | terminal
deriving DecidableEq

/-- Retry loop of `generateEmbedding` (`maxRetries = 3`): on a transient
failure with `attempt + 1 ≤ 3`, wait `2 ^ (attempt + 1) * 1000` ms and retry;
otherwise rethrow.  Returns the backoff delays performed and the result. -/
def genLoop (responses : Nat → ApiOutcome) (attempt : Nat) :
    List Nat × Except EmbedError (List ℚ) :=
  match responses attempt with
  | .ok v => ([], .ok v)
  | .okNoEmbedding => ([], .error .noEmbedding)
  | .errTransient =>
    if attempt + 1 ≤ 3 then
      let rest := genLoop responses (attempt + 1)
      ((2 ^ (attempt + 1) * 1000) :: rest.1, rest.2)
    else ([], .error .transient)
  | .errTerminal => ([], .error .terminal)
termination_by 4 - attempt
decreasing_by omega

/-- The input validation of `generateEmbedding`:
`!text || text.trim().length === 0` (JS trim strips `\s`, modelled by
`trimEnds`). -/
def isBlank (text : String) : Bool :=
  text = "" || (trimEnds text.data).length = 0

/-- services/geminiService.ts `generateEmbedding`: rejects blank input, then
runs the retry loop. -/
def generateEmbedding (text : String) (responses : Nat → ApiOutcome) :
    List Nat × Except EmbedError (List ℚ) :=
  if isBlank text then ([], .error .emptyInput)
  else genLoop responses 0

/-- services/geminiService.ts `embedChunks`: sequential best-effort batch; a
chunk whose embedding fails is dropped, the rest continue.  `responses c`
models the API outcomes seen by the `generateEmbedding` call for chunk `c`. -/
def embedChunks (responses : TextChunk → Nat → ApiOutcome) :
    List TextChunk → List TextChunk
  | [] => []
  | c :: rest =>
    match (generateEmbedding c.text (responses c)).2 with
    | .ok e => { c with embedding := some e } :: embedChunks responses rest
    | .error _ => embedChunks responses rest

/-! ### Cosine similarity and retrieval (services/geminiService.ts) -/

/-- Model of `Math.sqrt` on ℚ: exact on perfect squares (numerator and
denominator both squares), an arbitrary positive value on other positive
inputs, `0` on `0` (negative inputs do not arise: every use is on a sum of
squares). -/
def ratSqrt (q : ℚ) : ℚ :=
  if q ≤ 0 then 0
  else
    let n := q.num.toNat
    let d := q.den
    if Nat.sqrt n * Nat.sqrt n = n ∧ Nat.sqrt d * Nat.sqrt d = d then
      (Nat.sqrt n : ℚ) / (Nat.sqrt d : ℚ)
    else q + 1

/-- services/geminiService.ts `cosineSimilarity`.  The JS loop runs over
`vecA.length`; if `vecB` is shorter the loop reads `undefined` and the result
is NaN (`none`).  `magnitudeB` only sums `vecB[i]^2` for `i < vecA.length`.
When `sqrt(magA) * sqrt(magB) = 0` the source computes `0 / 0 = NaN`
(`none`); otherwise the quotient. -/
def cosineSimilarity (vecA vecB : List ℚ) : Option ℚ :=
  if vecB.length < vecA.length then none
  else
    let dotProduct := (List.zipWith (fun x y => x * y) vecA vecB).sum
    let magnitudeA := (vecA.map (fun x => x * x)).sum
    let magnitudeB := ((vecB.take vecA.length).map (fun y => y * y)).sum
    if ratSqrt magnitudeA * ratSqrt magnitudeB = 0 then none
    else some (dotProduct / (ratSqrt magnitudeA * ratSqrt magnitudeB))

/-- A chunk together with its score (`{ ...chunk, score }` in
`retrieveContext`). -/
structure ScoredChunk where
  chunk : TextChunk
  score : Option ℚ
deriving DecidableEq

/-- Step 3 of `retrieveContext`: a chunk without an embedding scores `-1`,
otherwise its cosine similarity with the query vector. -/
def scoreChunk (queryEmbedding : List ℚ) (c : TextChunk) : ScoredChunk :=
  match c.embedding with
  | none => ⟨c, some (-1)⟩
  | some e => ⟨c, cosineSimilarity queryEmbedding e⟩

/-- The comparator `(a, b) => b.score - a.score` of the sort in
`retrieveContext`, as the relation "a may stay before b": true when the
comparator value is `≤ 0`, and also when it is NaN (treated as equal). -/
def jsCompLe (a b : Option ℚ) : Bool :=
  match a, b with
  | some x, some y => decide (y ≤ x)
  | _, _ => true

/-- Stable insertion used to model `Array.prototype.sort` (stable per
ECMAScript) with the descending-score comparator. -/
def insertDesc (x : ScoredChunk) : List ScoredChunk → List ScoredChunk
  | [] => [x]
  | y :: ys => if jsCompLe x.score y.score then x :: y :: ys else y :: insertDesc x ys

/-- `scoredChunks.sort((a, b) => b.score - a.score)` as a stable sort. -/
def sortByScoreDesc : List ScoredChunk → List ScoredChunk
  | [] => []
  | x :: xs => insertDesc x (sortByScoreDesc xs)

/-- The filter `c.score > 0.30` (false for NaN, as in JS). -/
def passesThreshold (sc : ScoredChunk) : Bool :=
  match sc.score with
  | some q => decide ((3 / 10 : ℚ) < q)
  | none => false

/-- Final mapping of a retained scored chunk to a citation. -/
def toCitation (sc : ScoredChunk) : SourceCitation :=
  ⟨sc.chunk.documentName, sc.chunk.text, sc.score⟩

/-- Steps 3–5 of `retrieveContext`: score, sort descending, keep scores above
the 0.30 threshold, take the first `topK`, map to citations. -/
def rankChunks (queryEmbedding : List ℚ) (chunks : List TextChunk) (topK : Nat) :
    List SourceCitation :=
  (((sortByScoreDesc (chunks.map (scoreChunk queryEmbedding))).filter
    passesThreshold).take topK).map toCitation

/-! ### Vector store (services/db.ts) -/

/-- IndexedDB `put` on the `documents` store (keyPath `id`): replace the
record with the same key, else append. -/
def putDocument : List FileDocument → FileDocument → List FileDocument
  | [], d => [d]
  | x :: xs, d => if x.id = d.id then d :: xs else x :: putDocument xs d

/-- IndexedDB `put` on the `vectors` store (keyPath `id`). -/
def putVector : List TextChunk → TextChunk → List TextChunk
  | [], c => [c]
  | x :: xs, c => if x.id = c.id then c :: xs else x :: putVector xs c

/-- `tx.objectStore('documents').delete(docId)`: remove every record whose key
is `docId` (at most one, since `id` is the store key). -/
def deleteDocRecord : List FileDocument → String → List FileDocument
  | [], _ => []
  | d :: ds, docId =>
    if d.id = docId then deleteDocRecord ds docId
    else d :: deleteDocRecord ds docId

/-- The cursor loop of `deleteDocument` over the `documentId` index: visit
each vector in turn and delete the matching ones. -/
def deleteVectorsCursor : List TextChunk → String → List TextChunk
  | [], _ => []
  | v :: vs, docId =>
    if v.documentId = docId then deleteVectorsCursor vs docId
    else v :: deleteVectorsCursor vs docId

/-- db.ts `deleteDocument`: one transaction deleting the document row and
every vector referencing it. -/
def deleteDocument (docId : String) (s : Store) : Store :=
  { documents := deleteDocRecord s.documents docId
    vectors := deleteVectorsCursor s.vectors docId }

/-- db.ts `getDocumentsByUser`: the `ownerId` index. -/
def getDocumentsByUser (username : String) (s : Store) : List FileDocument :=
  s.documents.filter (fun d => decide (d.ownerId = username))

/-- db.ts `deleteDocumentsByName`: read the user's documents once, then delete
each one whose name matches. -/
def deleteDocumentsByName (username filename : String) (s : Store) : Store :=
  (((getDocumentsByUser username s).filter (fun d => decide (d.name = filename))).foldl
    (fun st d => deleteDocument d.id st) s)

/-- db.ts `saveDocument`: put the document metadata and every chunk vector in
one transaction. -/
def saveDocument (doc : FileDocument) (chunks : List TextChunk) (s : Store) : Store :=
  { documents := putDocument s.documents doc
    vectors := chunks.foldl (fun vs c => putVector vs c) s.vectors }

/-- db.ts `getAllVectorsByUser`: resolve the owner's document-id set, return
early when it is empty, else fetch all vectors and filter by membership. -/
def getAllVectorsByUser (username : String) (s : Store) : List TextChunk :=
  let docIds := (getDocumentsByUser username s).map (fun d => d.id)
  if docIds.isEmpty then []
  else s.vectors.filter (fun v => decide (v.documentId ∈ docIds))

/-! ### Retrieval entry point and ingestion pipeline -/

/-- services/geminiService.ts `retrieveContext`: embed the query (failure
propagates), load the owner's vectors, return `[]` on an empty set, else
rank. -/
def retrieveContext (query userId : String) (topK : Nat)
    (responses : Nat → ApiOutcome) (s : Store) :
    Except EmbedError (List SourceCitation) :=
  match (generateEmbedding query responses).2 with
  | .error e => .error e
  | .ok queryEmbedding =>
    let chunks := getAllVectorsByUser userId s
    if chunks.isEmpty then .ok []
    else .ok (rankChunks queryEmbedding chunks topK)

/-- `file.name.split('.').pop()?.toUpperCase() || 'UNKNOWN'`. -/
def fileTypeOf (filename : String) : String :=
  match (filename.splitOn ".").getLast? with
  | some ext => if ext.toUpper = "" then "UNKNOWN" else ext.toUpper
  | none => "UNKNOWN"

/-- One iteration of the file loop of `handleFilesSelected` (App.tsx), acting
on the store: delete the prior version by name, chunk the parsed text with the
default window (600, 100) — always terminating, so `getD []` never fires —
embed best-effort, then save the document (content filled, status 'ready')
together with the embedded chunks.  `version` is the UI-computed version and
`docId` the freshly generated random id. -/
def ingestFile (username filename docId : String) (version : Nat) (text : String)
    (responses : TextChunk → Nat → ApiOutcome) (now : Nat) (s : Store) : Store :=
  let s1 := deleteDocumentsByName username filename s
  let fileChunks := (chunkText text docId filename 600 100).getD []
  let embedded := embedChunks responses fileChunks
  let doc : FileDocument :=
    { id := docId
      ownerId := username
      name := filename
      type := fileTypeOf filename
      content := text
      status := .ready
      tokenCount := none
      version := version
      timestamp := now }
  saveDocument doc embedded s1


/-! ### Store lemmas -/

theorem deleteDocRecord_eq_filter (ds : List FileDocument) (docId : String) :
    deleteDocRecord ds docId = ds.filter (fun d => decide (¬ d.id = docId)) := by
  induction ds with
  | nil => rfl
  | cons d ds ih =>
    by_cases h : d.id = docId <;> simp [deleteDocRecord, h, ih]

theorem deleteVectorsCursor_eq_filter (vs : List TextChunk) (docId : String) :
    deleteVectorsCursor vs docId = vs.filter (fun v => decide (¬ v.documentId = docId)) := by
  induction vs with
  | nil => rfl
  | cons v vs ih =>
    by_cases h : v.documentId = docId <;> simp [deleteVectorsCursor, h, ih]

theorem mem_deleteDocRecord {d : FileDocument} {ds : List FileDocument} {docId : String} :
    d ∈ deleteDocRecord ds docId ↔ d ∈ ds ∧ d.id ≠ docId := by
  rw [deleteDocRecord_eq_filter]
  simp

theorem mem_deleteVectorsCursor {v : TextChunk} {vs : List TextChunk} {docId : String} :
    v ∈ deleteVectorsCursor vs docId ↔ v ∈ vs ∧ v.documentId ≠ docId := by
  rw [deleteVectorsCursor_eq_filter]
  simp

/-- C9: cascading delete is complete: for every store state and document id,
`deleteDocument docId` leaves no document with that id and no chunk whose
`documentId` equals `docId`, however many such chunks there are (the cursor
loop visits the whole index, it does not stop after one page). -/
theorem deleteDocument_removes_all (s : Store) (docId : String) :
    (∀ d ∈ (deleteDocument docId s).documents, d.id ≠ docId) ∧
    (∀ v ∈ (deleteDocument docId s).vectors, v.documentId ≠ docId) := by
  constructor
  · intro d hd
    exact (mem_deleteDocRecord.1 hd).2
  · intro v hv
    exact (mem_deleteVectorsCursor.1 hv).2

/-- C10: delete frame property: `deleteDocument docId` leaves every document
with a different id and every chunk with a different `documentId` untouched —
the resulting collections are exactly the original ones with the matching
records removed, in order. -/
theorem deleteDocument_frame (s : Store) (docId : String) :
    (deleteDocument docId s).documents
        = s.documents.filter (fun d => decide (¬ d.id = docId)) ∧
    (deleteDocument docId s).vectors
        = s.vectors.filter (fun v => decide (¬ v.documentId = docId)) :=
  ⟨deleteDocRecord_eq_filter s.documents docId, deleteVectorsCursor_eq_filter s.vectors docId⟩

theorem mem_getDocumentsByUser {d : FileDocument} {u : String} {s : Store} :
    d ∈ getDocumentsByUser u s ↔ d ∈ s.documents ∧ d.ownerId = u := by
  simp [getDocumentsByUser]

/-- C2: owner partition (noninterference): with unique document ids, every
chunk returned by `getAllVectorsByUser owner` belongs to a document of that
owner, and the result only depends on the owner's own documents and on the
vectors attached to them — two stores agreeing there return identical
results. -/
theorem getAllVectorsByUser_owner_partition (owner : String) (s1 s2 : Store)
    (hid : (s1.documents.map (fun d => d.id)).Nodup)
    (hdocs : getDocumentsByUser owner s1 = getDocumentsByUser owner s2)
    (hvecs : s1.vectors.filter
        (fun v => decide (v.documentId ∈ (getDocumentsByUser owner s1).map (fun d => d.id)))
      = s2.vectors.filter
        (fun v => decide (v.documentId ∈ (getDocumentsByUser owner s2).map (fun d => d.id)))) :
    (∀ v ∈ getAllVectorsByUser owner s1,
      ∃ d, d ∈ s1.documents ∧ d.id = v.documentId ∧ d.ownerId = owner) ∧
    getAllVectorsByUser owner s1 = getAllVectorsByUser owner s2 := by
  constructor
  · intro v hv
    simp only [getAllVectorsByUser] at hv
    by_cases h : (((getDocumentsByUser owner s1).map (fun d => d.id)).isEmpty)
    · simp [h] at hv
    · simp only [h, Bool.false_eq_true, if_false] at hv
      rw [List.mem_filter] at hv
      obtain ⟨hmem, hpt⟩ := hv
      rw [decide_eq_true_eq, List.mem_map] at hpt
      obtain ⟨d, hd, hdid⟩ := hpt
      exact ⟨d, (mem_getDocumentsByUser.1 hd).1, hdid, (mem_getDocumentsByUser.1 hd).2⟩
  · simp only [getAllVectorsByUser]
    rw [hvecs, hdocs]

def exDocA : FileDocument :=
  { id := "a1", ownerId := "alice", name := "a.txt", type := "TXT", content := "x",
    status := .ready, tokenCount := none, version := 1, timestamp := 0 }

def exDocB : FileDocument :=
  { id := "b1", ownerId := "bob", name := "b.txt", type := "TXT", content := "y",
    status := .ready, tokenCount := none, version := 1, timestamp := 0 }

def exVecA : TextChunk :=
  { id := "a1-0", documentId := "a1", documentName := "a.txt", text := "x",
    embedding := some [1] }

def exVecB : TextChunk :=
  { id := "b1-0", documentId := "b1", documentName := "b.txt", text := "y",
    embedding := some [1] }

theorem getAllVectorsByUser_owner_partition_witness :
    ((Store.mk [exDocA, exDocB] [exVecA, exVecB]).documents.map (fun d => d.id)).Nodup ∧
    getDocumentsByUser "alice" (Store.mk [exDocA, exDocB] [exVecA, exVecB])
      = getDocumentsByUser "alice" (Store.mk [exDocA] [exVecA]) ∧
    ((∀ v ∈ getAllVectorsByUser "alice" (Store.mk [exDocA, exDocB] [exVecA, exVecB]),
        ∃ d, d ∈ (Store.mk [exDocA, exDocB] [exVecA, exVecB]).documents ∧
          d.id = v.documentId ∧ d.ownerId = "alice") ∧
      getAllVectorsByUser "alice" (Store.mk [exDocA, exDocB] [exVecA, exVecB])
        = getAllVectorsByUser "alice" (Store.mk [exDocA] [exVecA])) :=
  ⟨by decide, by decide,
    getAllVectorsByUser_owner_partition "alice"
      (Store.mk [exDocA, exDocB] [exVecA, exVecB]) (Store.mk [exDocA] [exVecA])
      (by decide) (by decide) (by decide)⟩

/-! ### Chunker lemmas -/

theorem mkChunk_text_data (docId docName : String) (ord : Nat) (l : List Char) :
    (mkChunk docId docName ord l).text.data = l := rfl

theorem chunkLoop_spec (clean : List Char) (docId docName : String)
    (size ov : Nat) (hov : ov < size) :
    ∀ fuel start ord, clean.length - start < fuel →
      ∃ cs, chunkLoop clean docId docName size ov fuel start ord = some cs ∧
        (∀ i, start ≤ i → i < clean.length →
          ∃ c, c ∈ cs ∧ ∃ off, off < c.text.data.length ∧
            c.text.data[off]? = clean[i]?) ∧
        (∀ c ∈ cs, c.text.data.length ≤ size) := by
  intro fuel
  induction fuel with
  | zero => intro start ord h; omega
  | succ fuel ih =>
    intro start ord h
    by_cases hs : start < clean.length
    · have h2 : clean.length - (start + (size - ov)) < fuel := by omega
      obtain ⟨cs, hcs, hcov, hlen⟩ := ih (start + (size - ov)) (ord + 1) h2
      have hslice : ((clean.drop start).take (min (start + size) clean.length - start)).length
          = min (start + size) clean.length - start := by
        rw [List.length_take, List.length_drop]; omega
      refine ⟨mkChunk docId docName ord
          ((clean.drop start).take (min (start + size) clean.length - start)) :: cs, ?_, ?_, ?_⟩
      · simp [chunkLoop, hs, hcs]
      · intro i hi1 hi2
        by_cases hie : i < min (start + size) clean.length
        · refine ⟨_, List.mem_cons_self _ _, i - start, ?_, ?_⟩
          · rw [mkChunk_text_data, hslice]; omega
          · rw [mkChunk_text_data, List.getElem?_take_of_lt (by omega), List.getElem?_drop]
            congr 1
            omega
        · have hi3 : start + (size - ov) ≤ i := by omega
          obtain ⟨c, hc, rest⟩ := hcov i hi3 hi2
          exact ⟨c, List.mem_cons_of_mem _ hc, rest⟩
      · intro c hc
        rcases List.mem_cons.1 hc with rfl | hc
        · rw [mkChunk_text_data, hslice]; omega
        · exact hlen c hc
    · refine ⟨[], by simp [chunkLoop, hs], ?_, ?_⟩
      · intro i hi1 hi2; omega
      · intro c hc; simp at hc

/-- C8: chunker coverage and bound: for every input text and every parameter
pair with `overlap < size`, the chunker terminates and every character index
of the normalized text occurs in at least one emitted chunk (at the matching
offset of that chunk's text), and every chunk text has length at most
`size`. -/
theorem chunkText_coverage (text docId docName : String) (size ov : Nat)
    (hov : ov < size) :
    ∃ cs, chunkText text docId docName size ov = some cs ∧
      (∀ i, i < (normalize text.data).length →
        ∃ c, c ∈ cs ∧ ∃ off, off < c.text.data.length ∧
          c.text.data[off]? = (normalize text.data)[i]?) ∧
      (∀ c ∈ cs, c.text.data.length ≤ size) := by
  obtain ⟨cs, h1, h2, h3⟩ := chunkLoop_spec (normalize text.data) docId docName size ov hov
    ((normalize text.data).length + 1) 0 0 (by omega)
  exact ⟨cs, h1, fun i hi => h2 i (Nat.zero_le i) hi, h3⟩

theorem chunkText_coverage_witness :
    1 < 4 ∧
    ∃ cs, chunkText "hello world" "d1" "a.txt" 4 1 = some cs ∧
      (∀ i, i < (normalize "hello world".data).length →
        ∃ c, c ∈ cs ∧ ∃ off, off < c.text.data.length ∧
          c.text.data[off]? = (normalize "hello world".data)[i]?) ∧
      (∀ c ∈ cs, c.text.data.length ≤ 4) :=
  ⟨by decide, chunkText_coverage "hello world" "d1" "a.txt" 4 1 (by decide)⟩

/-- C3: the source `chunkText` performs no validation of `overlap < size`: at
`text = "ab"`, `size = 1`, `overlap = 1` the sliding-window loop never
advances (`start += size - overlap` adds 0) and never terminates, for any
amount of fuel — no configuration error is raised. -/
theorem chunkLoop_overlap_eq_size_diverges :
    ∀ fuel ord, chunkLoop (normalize "ab".data) "d1" "a.txt" 1 1 fuel 0 ord = none := by
  intro fuel
  induction fuel with
  | zero => intro ord; rfl
  | succ fuel ih =>
    intro ord
    have hlt : 0 < (normalize "ab".data).length := by decide
    simp [chunkLoop, hlt, ih (ord + 1)]

/-! ### Cosine similarity lemmas -/

theorem ratSqrt_zero : ratSqrt 0 = 0 := by
  simp [ratSqrt]

theorem ratSqrt_pos {q : ℚ} (h : 0 < q) : 0 < ratSqrt q := by
  rw [ratSqrt, if_neg (by linarith)]
  by_cases hsq : Nat.sqrt q.num.toNat * Nat.sqrt q.num.toNat = q.num.toNat ∧
      Nat.sqrt q.den * Nat.sqrt q.den = q.den
  · rw [if_pos hsq]
    have hn : 0 < q.num.toNat := by
      have := Rat.num_pos.2 h
      omega
    have hd : 0 < q.den := q.den_pos
    apply div_pos
    · have : Nat.sqrt q.num.toNat ≠ 0 := by
        intro h0
        rw [h0] at hsq
        omega
      exact_mod_cast Nat.pos_of_ne_zero this
    · have : Nat.sqrt q.den ≠ 0 := by
        intro h0
        rw [h0] at hsq
        omega
      exact_mod_cast Nat.pos_of_ne_zero this
  · rw [if_neg hsq]
    linarith

theorem sum_sq_nonneg (l : List ℚ) : 0 ≤ (l.map (fun x => x * x)).sum := by
  apply List.sum_nonneg
  intro x hx
  obtain ⟨y, _, rfl⟩ := List.mem_map.1 hx
  exact mul_self_nonneg y

/-- C4 counterexample: at the zero vectors `a = b = [0]` the source computes
`0 / (sqrt 0 * sqrt 0) = 0 / 0 = NaN` (modelled `none`): the similarity is
not the defined value 0 the claim requires. -/
theorem cosineSimilarity_zero_vector_counterexample :
    cosineSimilarity [(0 : ℚ)] [(0 : ℚ)] = none ∧
    cosineSimilarity [(0 : ℚ)] [(0 : ℚ)] ≠ some 0 := by
  constructor
  · simp [cosineSimilarity, ratSqrt_zero]
  · simp [cosineSimilarity, ratSqrt_zero]

/-- C4 amended: when either vector has zero magnitude the source similarity is
NaN (undefined, `none`), not 0; for vectors of nonzero magnitude (with `b` at
least as long as `a`, as the loop runs over `a`) it equals
`dot(a,b) / (‖a‖·‖b‖)`. -/
theorem cosineSimilarity_zero_magnitude_nan :
    (∀ a b : List ℚ, a.length ≤ b.length →
      ((a.map (fun x => x * x)).sum = 0 ∨
        ((b.take a.length).map (fun y => y * y)).sum = 0) →
      cosineSimilarity a b = none) ∧
    (∀ a b : List ℚ, a.length ≤ b.length →
      (a.map (fun x => x * x)).sum ≠ 0 →
      ((b.take a.length).map (fun y => y * y)).sum ≠ 0 →
      cosineSimilarity a b =
        some ((List.zipWith (fun x y => x * y) a b).sum /
          (ratSqrt ((a.map (fun x => x * x)).sum) *
            ratSqrt (((b.take a.length).map (fun y => y * y)).sum)))) := by
  constructor
  · intro a b hab hz
    have hden : ratSqrt ((a.map (fun x => x * x)).sum) *
        ratSqrt (((b.take a.length).map (fun y => y * y)).sum) = 0 := by
      rcases hz with hz | hz
      · rw [hz, ratSqrt_zero, zero_mul]
      · rw [hz, ratSqrt_zero, mul_zero]
    simp only [cosineSimilarity, if_neg (not_lt.2 hab)]
    rw [if_pos hden]
  · intro a b hab hA hB
    have hApos : 0 < (a.map (fun x => x * x)).sum :=
      lt_of_le_of_ne (sum_sq_nonneg a) (Ne.symm hA)
    have hBpos : 0 < ((b.take a.length).map (fun y => y * y)).sum :=
      lt_of_le_of_ne (sum_sq_nonneg _) (Ne.symm hB)
    have hden : ratSqrt ((a.map (fun x => x * x)).sum) *
        ratSqrt (((b.take a.length).map (fun y => y * y)).sum) ≠ 0 :=
      ne_of_gt (mul_pos (ratSqrt_pos hApos) (ratSqrt_pos hBpos))
    simp only [cosineSimilarity, if_neg (not_lt.2 hab)]
    rw [if_neg hden]

theorem cosineSimilarity_zero_magnitude_nan_witness :
    (([(0 : ℚ)].map (fun x => x * x)).sum = 0 ∧
      cosineSimilarity [(0 : ℚ)] [(0 : ℚ), 1] = none) ∧
    (([(1 : ℚ)].map (fun x => x * x)).sum ≠ 0 ∧
      cosineSimilarity [(1 : ℚ)] [(1 : ℚ)] =
        some ((List.zipWith (fun x y => x * y) [(1 : ℚ)] [(1 : ℚ)]).sum /
          (ratSqrt (([(1 : ℚ)].map (fun x => x * x)).sum) *
            ratSqrt ((([(1 : ℚ)].take 1).map (fun y => y * y)).sum)))) :=
  ⟨⟨by norm_num,
      cosineSimilarity_zero_magnitude_nan.1 [(0 : ℚ)] [(0 : ℚ), 1] (by norm_num)
        (Or.inl (by norm_num))⟩,
    ⟨by norm_num,
      cosineSimilarity_zero_magnitude_nan.2 [(1 : ℚ)] [(1 : ℚ)] (by norm_num)
        (by norm_num) (by norm_num)⟩⟩

/-! ### Embedding client lemmas -/

theorem genLoop_eq (responses : Nat → ApiOutcome) (attempt : Nat) :
    genLoop responses attempt =
      match responses attempt with
      | .ok v => ([], .ok v)
      | .okNoEmbedding => ([], .error .noEmbedding)
      | .errTransient =>
        if attempt + 1 ≤ 3 then
          ((2 ^ (attempt + 1) * 1000) :: (genLoop responses (attempt + 1)).1,
            (genLoop responses (attempt + 1)).2)
        else ([], .error .transient)
      | .errTerminal => ([], .error .terminal) := by
  rw [genLoop]

/-- C6: embedding retry contract for non-blank input: three transient
failures then a success return the success after backoff delays 2000, 4000,
8000 ms; four transient failures exhaust the retry budget and raise the
(transient) embedding error; a terminal failure propagates immediately with
no retry and no delay. -/
theorem generateEmbedding_retry_contract (text : String) (v : List ℚ)
    (r1 r2 r3 : Nat → ApiOutcome)
    (hblank : isBlank text = false)
    (h1a : ∀ i, i < 3 → r1 i = .errTransient) (h1b : r1 3 = .ok v)
    (h2 : ∀ i, i < 4 → r2 i = .errTransient)
    (h3 : r3 0 = .errTerminal) :
    generateEmbedding text r1 = ([2000, 4000, 8000], .ok v) ∧
    generateEmbedding text r2 = ([2000, 4000, 8000], .error .transient) ∧
    generateEmbedding text r3 = ([], .error .terminal) := by
  have s3 : genLoop r1 3 = ([], .ok v) := by rw [genLoop_eq, h1b]
  have s2 : genLoop r1 2 = ([8000], .ok v) := by
    rw [genLoop_eq, h1a 2 (by omega)]
    norm_num [s3]
  have s1 : genLoop r1 1 = ([4000, 8000], .ok v) := by
    rw [genLoop_eq, h1a 1 (by omega)]
    norm_num [s2]
  have s0 : genLoop r1 0 = ([2000, 4000, 8000], .ok v) := by
    rw [genLoop_eq, h1a 0 (by omega)]
    norm_num [s1]
  have t3 : genLoop r2 3 = ([], .error .transient) := by
    rw [genLoop_eq, h2 3 (by omega)]
    norm_num
  have t2 : genLoop r2 2 = ([8000], .error .transient) := by
    rw [genLoop_eq, h2 2 (by omega)]
    norm_num [t3]
  have t1 : genLoop r2 1 = ([4000, 8000], .error .transient) := by
    rw [genLoop_eq, h2 1 (by omega)]
    norm_num [t2]
  have t0 : genLoop r2 0 = ([2000, 4000, 8000], .error .transient) := by
    rw [genLoop_eq, h2 0 (by omega)]
    norm_num [t1]
  have u0 : genLoop r3 0 = ([], .error .terminal) := by rw [genLoop_eq, h3]
  refine ⟨?_, ?_, ?_⟩ <;> simp [generateEmbedding, hblank, s0, t0, u0]

def wr1 : Nat → ApiOutcome := fun i => if i < 3 then .errTransient else .ok [1]

def wr2 : Nat → ApiOutcome := fun _ => .errTransient

def wr3 : Nat → ApiOutcome := fun _ => .errTerminal

theorem generateEmbedding_retry_contract_witness :
    isBlank "hi" = false ∧
    generateEmbedding "hi" wr1 = ([2000, 4000, 8000], .ok [1]) ∧
    generateEmbedding "hi" wr2 = ([2000, 4000, 8000], .error .transient) ∧
    generateEmbedding "hi" wr3 = ([], .error .terminal) :=
  ⟨by decide,
    generateEmbedding_retry_contract "hi" [1] wr1 wr2 wr3 (by decide)
      (fun i hi => by simp [wr1, hi]) (by simp [wr1]) (fun i _ => rfl) rfl⟩

/-! ### Retrieval ranking lemmas -/

/-- Descending-score order on defined (non-NaN) scores. -/
def scoreGe (a b : ScoredChunk) : Prop :=
  ∃ x y, a.score = some x ∧ b.score = some y ∧ y ≤ x

theorem jsCompLe_true {x y : ℚ} (h : jsCompLe (some x) (some y) = true) : y ≤ x := by
  simpa [jsCompLe] using h

theorem jsCompLe_false {a b : Option ℚ} (h : jsCompLe a b = false) :
    ∃ x y, a = some x ∧ b = some y ∧ x < y := by
  match a, b with
  | some x, some y =>
    refine ⟨x, y, rfl, rfl, ?_⟩
    simp only [jsCompLe, decide_eq_false_iff_not] at h
    exact lt_of_not_le h
  | some x, none => simp [jsCompLe] at h
  | none, _ => simp [jsCompLe] at h

theorem mem_insertDesc {x a : ScoredChunk} {l : List ScoredChunk} :
    a ∈ insertDesc x l ↔ a = x ∨ a ∈ l := by
  induction l with
  | nil => simp [insertDesc]
  | cons y ys ih =>
    by_cases h : jsCompLe x.score y.score <;> simp [insertDesc, h, ih] <;> tauto

theorem mem_sortByScoreDesc {a : ScoredChunk} {l : List ScoredChunk} :
    a ∈ sortByScoreDesc l ↔ a ∈ l := by
  induction l with
  | nil => simp [sortByScoreDesc]
  | cons y ys ih => simp [sortByScoreDesc, mem_insertDesc, ih]

theorem pairwise_insertDesc {x : ScoredChunk} {l : List ScoredChunk}
    (hx : x.score.isSome) (hl : ∀ a ∈ l, a.score.isSome)
    (hp : l.Pairwise scoreGe) : (insertDesc x l).Pairwise scoreGe := by
  induction l with
  | nil => simp [insertDesc]
  | cons y ys ih =>
    obtain ⟨xv, hxv⟩ := Option.isSome_iff_exists.1 hx
    obtain ⟨yv, hyv⟩ := Option.isSome_iff_exists.1 (hl y (List.mem_cons_self y ys))
    rw [List.pairwise_cons] at hp
    obtain ⟨hyrest, hpys⟩ := hp
    by_cases h : jsCompLe x.score y.score
    · rw [insertDesc, if_pos h]
      rw [hxv, hyv] at h
      have hyx : yv ≤ xv := jsCompLe_true h
      refine List.Pairwise.cons ?_ (List.Pairwise.cons hyrest hpys)
      intro b hb
      rcases List.mem_cons.1 hb with rfl | hb
      · exact ⟨xv, yv, hxv, hyv, hyx⟩
      · obtain ⟨yv2, bv, hyv2, hbv, hle⟩ := hyrest b hb
        rw [hyv] at hyv2
        have hyy : yv = yv2 := Option.some_inj.1 hyv2
        exact ⟨xv, bv, hxv, hbv, le_trans hle (by rw [← hyy]; exact hyx)⟩
    · rw [insertDesc, if_neg h]
      obtain ⟨xv2, yv2, hxv2, hyv2, hlt⟩ := jsCompLe_false (Bool.of_not_eq_true h)
      refine List.Pairwise.cons ?_ (ih (fun a ha => hl a (List.mem_cons_of_mem _ ha)) hpys)
      intro b hb
      rcases mem_insertDesc.1 hb with rfl | hb
      · exact ⟨yv2, xv2, hyv2, hxv2, le_of_lt hlt⟩
      · exact hyrest b hb

theorem pairwise_sortByScoreDesc {l : List ScoredChunk}
    (hl : ∀ a ∈ l, a.score.isSome) : (sortByScoreDesc l).Pairwise scoreGe := by
  induction l with
  | nil => simp [sortByScoreDesc]
  | cons y ys ih =>
    refine pairwise_insertDesc (hl y (List.mem_cons_self y ys)) ?_
      (ih (fun a ha => hl a (List.mem_cons_of_mem _ ha)))
    intro a ha
    exact hl a (List.mem_cons_of_mem _ (mem_sortByScoreDesc.1 ha))

theorem filter_scoreEq_insertDesc (q : ℚ) (x : ScoredChunk) (l : List ScoredChunk) :
    (insertDesc x l).filter (fun sc => decide (sc.score = some q))
      = if x.score = some q then
          x :: l.filter (fun sc => decide (sc.score = some q))
        else l.filter (fun sc => decide (sc.score = some q)) := by
  induction l with
  | nil => by_cases hx : x.score = some q <;> simp [insertDesc, hx]
  | cons y ys ih =>
    by_cases h : jsCompLe x.score y.score
    · rw [insertDesc, if_pos h]
      by_cases hx : x.score = some q <;> simp [hx, List.filter]
    · rw [insertDesc, if_neg h]
      obtain ⟨xv, yv, hxv, hyv, hlt⟩ := jsCompLe_false (Bool.of_not_eq_true h)
      have hkey : ¬(x.score = some q ∧ y.score = some q) := by
        rintro ⟨hx, hy⟩
        rw [hx] at hxv
        rw [hy] at hyv
        rw [← Option.some_inj.1 hxv, ← Option.some_inj.1 hyv] at hlt
        exact lt_irrefl q hlt
      by_cases hy : y.score = some q
      · have hx : ¬ x.score = some q := fun hx => hkey ⟨hx, hy⟩
        simp [List.filter, hy, hx, ih]
      · simp [List.filter, hy, ih]

theorem filter_scoreEq_sortByScoreDesc (q : ℚ) (l : List ScoredChunk) :
    (sortByScoreDesc l).filter (fun sc => decide (sc.score = some q))
      = l.filter (fun sc => decide (sc.score = some q)) := by
  induction l with
  | nil => simp [sortByScoreDesc]
  | cons y ys ih =>
    rw [sortByScoreDesc, filter_scoreEq_insertDesc]
    by_cases hy : y.score = some q <;> simp [List.filter, hy, ih]

theorem ratSqrt_natCast_mul_self (k : ℕ) : ratSqrt ((k : ℚ) * k) = k := by
  rcases Nat.eq_zero_or_pos k with hk | hk
  · subst hk
    simpa using ratSqrt_zero
  · have hq : ((k : ℚ) * k) = ((k * k : ℕ) : ℚ) := by push_cast; ring
    have hpos : (0 : ℚ) < ((k * k : ℕ) : ℚ) := by exact_mod_cast Nat.mul_pos hk hk
    rw [hq, ratSqrt, if_neg (not_le.2 hpos)]
    simp only [Rat.num_natCast, Rat.den_natCast, Int.toNat_natCast, Nat.sqrt_eq, Nat.sqrt_one]
    rw [if_pos (by norm_num)]
    norm_num

/-- The worked retrieval example of the specification: three chunks of one
document "A.pdf" whose cosine scores against the query vector are
0.9, 0.2 and 0.5. -/
def exQuery : List ℚ := [1, 0, 0, 0]

def exChunk1 : TextChunk :=
  { id := "d1-0", documentId := "d1", documentName := "A.pdf", text := "t1",
    embedding := some [9, 3, 3, 1] }

def exChunk2 : TextChunk :=
  { id := "d1-1", documentId := "d1", documentName := "A.pdf", text := "t2",
    embedding := some [2, 8, 4, 4] }

def exChunk3 : TextChunk :=
  { id := "d1-2", documentId := "d1", documentName := "A.pdf", text := "t3",
    embedding := some [5, 5, 5, 5] }

theorem exRatSqrt_one : ratSqrt (1 : ℚ) = 1 := by
  have h := ratSqrt_natCast_mul_self 1
  norm_num at h
  exact h

theorem exRatSqrt_hundred : ratSqrt (100 : ℚ) = 10 := by
  have h := ratSqrt_natCast_mul_self 10
  norm_num at h
  exact h

theorem ex_cos1 : cosineSimilarity exQuery [9, 3, 3, 1] = some (9 / 10) := by
  simp only [exQuery, cosineSimilarity]
  norm_num [exRatSqrt_one, exRatSqrt_hundred]

theorem ex_cos2 : cosineSimilarity exQuery [2, 8, 4, 4] = some (1 / 5) := by
  simp only [exQuery, cosineSimilarity]
  norm_num [exRatSqrt_one, exRatSqrt_hundred]

theorem ex_cos3 : cosineSimilarity exQuery [5, 5, 5, 5] = some (1 / 2) := by
  simp only [exQuery, cosineSimilarity]
  norm_num [exRatSqrt_one, exRatSqrt_hundred]

theorem rank_example :
    rankChunks exQuery [exChunk1, exChunk2, exChunk3] 2
      = [⟨"A.pdf", "t1", some (9 / 10)⟩, ⟨"A.pdf", "t3", some (1 / 2)⟩] := by
  have h1 : scoreChunk exQuery exChunk1 = ⟨exChunk1, some (9 / 10)⟩ := by
    simp [scoreChunk, exChunk1, ex_cos1]
  have h2 : scoreChunk exQuery exChunk2 = ⟨exChunk2, some (1 / 5)⟩ := by
    simp [scoreChunk, exChunk2, ex_cos2]
  have h3 : scoreChunk exQuery exChunk3 = ⟨exChunk3, some (1 / 2)⟩ := by
    simp [scoreChunk, exChunk3, ex_cos3]
  simp only [rankChunks, List.map_cons, List.map_nil, h1, h2, h3]
  norm_num [sortByScoreDesc, insertDesc, jsCompLe, passesThreshold, toCitation,
    List.filter, exChunk1, exChunk2, exChunk3]

/-- C5: retrieval postcondition: for every owner chunk set whose computed
scores are defined (non-NaN) and every query vector, the ranked result has at
most `topK` entries, every entry's score strictly exceeds the 0.30 threshold
(so chunks lacking an embedding, scored −1, are always excluded), the entries
are sorted descending by score, ties keep the stable scan order (for each
score value, the sorted sequence of chunks carrying it equals the original
scan sequence), and on the worked example with scores [0.9, 0.2, 0.5],
threshold 0.3 and topK 2 the ranked scores are [0.9, 0.5]. -/
theorem retrieveContext_ranking (qe : List ℚ) (chunks : List TextChunk) (topK : Nat)
    (hdef : ∀ c ∈ chunks, (scoreChunk qe c).score.isSome) :
    (rankChunks qe chunks topK).length ≤ topK ∧
    (∀ cit ∈ rankChunks qe chunks topK,
      ∃ q, cit.relevanceScore = some q ∧ (3 / 10 : ℚ) < q) ∧
    (rankChunks qe chunks topK).Pairwise
      (fun c1 c2 => ∃ x y, c1.relevanceScore = some x ∧ c2.relevanceScore = some y ∧ y ≤ x) ∧
    (∀ q : ℚ,
      (sortByScoreDesc (chunks.map (scoreChunk qe))).filter
          (fun sc => decide (sc.score = some q))
        = (chunks.map (scoreChunk qe)).filter (fun sc => decide (sc.score = some q))) ∧
    rankChunks exQuery [exChunk1, exChunk2, exChunk3] 2
      = [⟨"A.pdf", "t1", some (9 / 10)⟩, ⟨"A.pdf", "t3", some (1 / 2)⟩] := by
  refine ⟨?_, ?_, ?_, fun q => filter_scoreEq_sortByScoreDesc q _, rank_example⟩
  · rw [rankChunks, List.length_map]
    exact le_trans (List.length_take_le _ _) (le_refl _)
  · intro cit hc
    rw [rankChunks] at hc
    obtain ⟨sc, hsc, rfl⟩ := List.mem_map.1 hc
    have hf := List.mem_of_mem_take hsc
    obtain ⟨_, hpt⟩ := List.mem_filter.1 hf
    match hscore : sc.score with
    | none => rw [passesThreshold, hscore] at hpt; cases hpt
    | some q =>
      refine ⟨q, hscore, ?_⟩
      rw [passesThreshold, hscore, decide_eq_true_eq] at hpt
      exact hpt
  · have hall : ∀ a ∈ chunks.map (scoreChunk qe), a.score.isSome := by
      intro a ha
      obtain ⟨c, hc, rfl⟩ := List.mem_map.1 ha
      exact hdef c hc
    have hp := pairwise_sortByScoreDesc hall
    have hsub : (((sortByScoreDesc (chunks.map (scoreChunk qe))).filter
        passesThreshold).take topK).Sublist
          (sortByScoreDesc (chunks.map (scoreChunk qe))) :=
      (List.take_sublist _ _).trans (List.filter_sublist _)
    have hp2 := hp.sublist hsub
    rw [rankChunks, List.pairwise_map]
    exact hp2.imp (fun h => h)

theorem retrieveContext_ranking_witness :
    (∀ c ∈ [exChunk1, exChunk2, exChunk3], (scoreChunk exQuery c).score.isSome) ∧
    ((rankChunks exQuery [exChunk1, exChunk2, exChunk3] 2).length ≤ 2 ∧
      (∀ cit ∈ rankChunks exQuery [exChunk1, exChunk2, exChunk3] 2,
        ∃ q, cit.relevanceScore = some q ∧ (3 / 10 : ℚ) < q) ∧
      (rankChunks exQuery [exChunk1, exChunk2, exChunk3] 2).Pairwise
        (fun c1 c2 =>
          ∃ x y, c1.relevanceScore = some x ∧ c2.relevanceScore = some y ∧ y ≤ x) ∧
      (∀ q : ℚ,
        (sortByScoreDesc ([exChunk1, exChunk2, exChunk3].map (scoreChunk exQuery))).filter
            (fun sc => decide (sc.score = some q))
          = ([exChunk1, exChunk2, exChunk3].map (scoreChunk exQuery)).filter
            (fun sc => decide (sc.score = some q))) ∧
      rankChunks exQuery [exChunk1, exChunk2, exChunk3] 2
        = [⟨"A.pdf", "t1", some (9 / 10)⟩, ⟨"A.pdf", "t3", some (1 / 2)⟩]) := by
  have hdef : ∀ c ∈ [exChunk1, exChunk2, exChunk3], (scoreChunk exQuery c).score.isSome := by
    intro c hc
    rcases List.mem_cons.1 hc with rfl | hc
    · simp [scoreChunk, exChunk1, ex_cos1]
    rcases List.mem_cons.1 hc with rfl | hc
    · simp [scoreChunk, exChunk2, ex_cos2]
    rcases List.mem_cons.1 hc with rfl | hc
    · simp [scoreChunk, exChunk3, ex_cos3]
    · cases hc
  exact ⟨hdef, retrieveContext_ranking exQuery [exChunk1, exChunk2, exChunk3] 2 hdef⟩

/-! ### Put / foldl-delete lemmas -/

theorem self_mem_putDocument (ds : List FileDocument) (d : FileDocument) :
    d ∈ putDocument ds d := by
  induction ds with
  | nil => simp [putDocument]
  | cons x xs ih =>
    rw [putDocument]
    by_cases h : x.id = d.id
    · simp [h]
    · simp only [if_neg h, List.mem_cons]
      exact Or.inr ih

theorem putDocument_of_not_mem {ds : List FileDocument} {d : FileDocument}
    (h : ¬ d.id ∈ ds.map (fun t => t.id)) : putDocument ds d = ds ++ [d] := by
  induction ds with
  | nil => simp [putDocument]
  | cons x xs ih =>
    rw [List.map_cons, List.mem_cons] at h
    push_neg at h
    rw [putDocument, if_neg (fun he => h.1 he.symm), ih h.2]
    simp

theorem putVector_of_not_mem {vs : List TextChunk} {c : TextChunk}
    (h : ¬ c.id ∈ vs.map (fun t => t.id)) : putVector vs c = vs ++ [c] := by
  induction vs with
  | nil => simp [putVector]
  | cons x xs ih =>
    rw [List.map_cons, List.mem_cons] at h
    push_neg at h
    rw [putVector, if_neg (fun he => h.1 he.symm), ih h.2]
    simp

theorem foldl_putVector_of_fresh (cs : List TextChunk) :
    ∀ vs : List TextChunk,
      (∀ c ∈ cs, ¬ c.id ∈ vs.map (fun t => t.id)) →
      (cs.map (fun c => c.id)).Nodup →
      cs.foldl (fun acc c => putVector acc c) vs = vs ++ cs := by
  induction cs with
  | nil => intro vs _ _; simp
  | cons c cs ih =>
    intro vs hfresh hnodup
    rw [List.map_cons, List.nodup_cons] at hnodup
    rw [List.foldl_cons, putVector_of_not_mem (hfresh c (List.mem_cons_self c cs)),
      ih (vs ++ [c]) ?_ hnodup.2]
    · simp
    · intro x hx
      rw [List.map_append, List.mem_append]
      rintro (hmem | hone)
      · exact hfresh x (List.mem_cons_of_mem _ hx) hmem
      · simp only [List.map_cons, List.map_nil, List.mem_singleton] at hone
        exact hnodup.1 (hone ▸ List.mem_map_of_mem (fun t => t.id) hx)

theorem foldl_deleteDocument_spec (ds : List FileDocument) :
    ∀ s : Store,
      (ds.foldl (fun st d => deleteDocument d.id st) s).documents
          = s.documents.filter (fun x => decide (¬ x.id ∈ ds.map (fun t => t.id))) ∧
      (ds.foldl (fun st d => deleteDocument d.id st) s).vectors
          = s.vectors.filter (fun x => decide (¬ x.documentId ∈ ds.map (fun t => t.id))) := by
  induction ds with
  | nil => intro s; constructor <;> simp
  | cons d ds ih =>
    intro s
    rw [List.foldl_cons]
    obtain ⟨ihd, ihv⟩ := ih (deleteDocument d.id s)
    constructor
    · rw [ihd]
      show (deleteDocRecord s.documents d.id).filter _ = _
      rw [deleteDocRecord_eq_filter, List.filter_filter]
      apply List.filter_congr
      intro x _
      simp only [List.map_cons, List.mem_cons, not_or, Bool.decide_and, decide_not]
      rw [Bool.and_comm]
    · rw [ihv]
      show (deleteVectorsCursor s.vectors d.id).filter _ = _
      rw [deleteVectorsCursor_eq_filter, List.filter_filter]
      apply List.filter_congr
      intro x _
      simp only [List.map_cons, List.mem_cons, not_or, Bool.decide_and, decide_not]
      rw [Bool.and_comm]

/-! ### Ingestion pipeline theorems -/

/-- C1 counterexample: a concrete ingestion run in which every chunk fails to
embed (1 of 1 chunks, terminal API failure).  The pipeline does not abort: the
resulting store holds the document with status 'ready' and owner "u", name
"a.txt", while the vector store holds no chunk at all. -/
theorem ingest_zero_vectors_counterexample :
    ((chunkText "hello" "d1" "a.txt" 600 100).getD []).length = 1 ∧
    embedChunks (fun _ _ => ApiOutcome.errTerminal)
      ((chunkText "hello" "d1" "a.txt" 600 100).getD []) = [] ∧
    (ingestFile "u" "a.txt" "d1" 1 "hello" (fun _ _ => ApiOutcome.errTerminal) 0
        (Store.mk [] [])).documents.map (fun d => (d.id, d.ownerId, d.name, d.status))
      = [("d1", "u", "a.txt", DocStatus.ready)] ∧
    (ingestFile "u" "a.txt" "d1" 1 "hello" (fun _ _ => ApiOutcome.errTerminal) 0
        (Store.mk [] [])).vectors = [] := by
  have hch : chunkText "hello" "d1" "a.txt" 600 100
      = some [⟨"d1-0", "d1", "a.txt", "hello", none⟩] := by decide
  have hbl : isBlank "hello" = false := by decide
  have hemb : embedChunks (fun _ _ => ApiOutcome.errTerminal)
      [⟨"d1-0", "d1", "a.txt", "hello", none⟩] = ([] : List TextChunk) := by
    simp [embedChunks, generateEmbedding, hbl, genLoop_eq]
  refine ⟨by rw [hch]; rfl, by rw [hch]; exact hemb, ?_, ?_⟩
  · simp [ingestFile, hch, hemb, deleteDocumentsByName, getDocumentsByUser,
      saveDocument, putDocument]
  · simp [ingestFile, hch, hemb, deleteDocumentsByName, getDocumentsByUser, saveDocument]

/-- C1 amended: when the embedding batch yields no embedded chunks the
pipeline does not abort: the store write still happens, so the final store
contains the document with the fresh id and status 'ready' while no vector
with that document id exists — a "ready" document backed by zero chunk
vectors. -/
theorem ingest_all_embeds_failed_writes_ready (username filename docId : String)
    (version now : Nat) (text : String) (responses : TextChunk → Nat → ApiOutcome)
    (s : Store)
    (hE : embedChunks responses ((chunkText text docId filename 600 100).getD []) = [])
    (hvecdoc : ∀ v ∈ s.vectors, v.documentId ≠ docId) :
    (∃ d, d ∈ (ingestFile username filename docId version text responses now s).documents ∧
      d.id = docId ∧ d.status = DocStatus.ready) ∧
    (ingestFile username filename docId version text responses now s).vectors.filter
      (fun v => decide (v.documentId = docId)) = [] := by
  constructor
  · refine ⟨⟨docId, username, filename, fileTypeOf filename, text, .ready,
      none, version, now⟩, ?_, rfl, rfl⟩
    simp only [ingestFile, saveDocument]
    exact self_mem_putDocument _ _
  · simp only [ingestFile, saveDocument, hE, List.foldl_nil, deleteDocumentsByName]
    rw [(foldl_deleteDocument_spec _ _).2, List.filter_filter, List.filter_eq_nil_iff]
    intro v hv hand
    rw [Bool.and_eq_true, decide_eq_true_eq] at hand
    exact hvecdoc v hv hand.1

theorem ingest_all_embeds_failed_writes_ready_witness :
    embedChunks (fun _ _ => ApiOutcome.errTransient)
      ((chunkText "hey there" "d2" "b.txt" 600 100).getD []) = [] ∧
    ((∃ d, d ∈ (ingestFile "u" "b.txt" "d2" 1 "hey there"
        (fun _ _ => ApiOutcome.errTransient) 0 (Store.mk [] [exVecA])).documents ∧
      d.id = "d2" ∧ d.status = DocStatus.ready) ∧
    (ingestFile "u" "b.txt" "d2" 1 "hey there"
        (fun _ _ => ApiOutcome.errTransient) 0 (Store.mk [] [exVecA])).vectors.filter
      (fun v => decide (v.documentId = "d2")) = []) := by
  have hch : chunkText "hey there" "d2" "b.txt" 600 100
      = some [⟨"d2-0", "d2", "b.txt", "hey there", none⟩] := by decide
  have hbl : isBlank "hey there" = false := by decide
  have hE : embedChunks (fun _ _ => ApiOutcome.errTransient)
      ((chunkText "hey there" "d2" "b.txt" 600 100).getD []) = [] := by
    rw [hch]
    simp [embedChunks, generateEmbedding, hbl, genLoop_eq]
  refine ⟨hE, ingest_all_embeds_failed_writes_ready "u" "b.txt" "d2" 1 0 "hey there"
    (fun _ _ => ApiOutcome.errTransient) (Store.mk [] [exVecA]) hE ?_⟩
  intro v hv
  rcases List.mem_singleton.1 hv with rfl
  decide

/-! ### Re-ingestion lemmas -/

theorem chunkLoop_chunks_shape (clean : List Char) (docId docName : String)
    (size ov : Nat) :
    ∀ fuel start ord cs, chunkLoop clean docId docName size ov fuel start ord = some cs →
      ∀ c ∈ cs, c.documentId = docId ∧ ∃ j, c.id = chunkId docId j := by
  intro fuel
  induction fuel with
  | zero => intro start ord cs h; cases h
  | succ fuel ih =>
    intro start ord cs h c hc
    rw [chunkLoop] at h
    by_cases hs : start < clean.length
    · rw [if_pos hs] at h
      cases hrec : chunkLoop clean docId docName size ov fuel
          (start + (size - ov)) (ord + 1) with
      | none => rw [hrec] at h; cases h
      | some cs' =>
        rw [hrec] at h
        obtain rfl := Option.some_inj.1 h
        rcases List.mem_cons.1 hc with rfl | hc2
        · exact ⟨rfl, ord, rfl⟩
        · exact ih (start + (size - ov)) (ord + 1) cs' hrec c hc2
    · rw [if_neg hs] at h
      obtain rfl := Option.some_inj.1 h
      cases hc

theorem embedChunks_shape (responses : TextChunk → Nat → ApiOutcome)
    (cs : List TextChunk) :
    ∀ c' ∈ embedChunks responses cs,
      ∃ c, c ∈ cs ∧ c'.id = c.id ∧ c'.documentId = c.documentId := by
  induction cs with
  | nil => intro c' hc'; cases hc'
  | cons c rest ih =>
    intro c' hc'
    rw [embedChunks] at hc'
    cases hr : (generateEmbedding c.text (responses c)).2 with
    | ok e =>
      rw [hr] at hc'
      rcases List.mem_cons.1 hc' with rfl | h2
      · exact ⟨c, List.mem_cons_self c rest, rfl, rfl⟩
      · obtain ⟨c0, h0, hid, hdid⟩ := ih c' h2
        exact ⟨c0, List.mem_cons_of_mem _ h0, hid, hdid⟩
    | error err =>
      rw [hr] at hc'
      obtain ⟨c0, h0, hid, hdid⟩ := ih c' hc'
      exact ⟨c0, List.mem_cons_of_mem _ h0, hid, hdid⟩

theorem replace_then_save_spec (username filename docId : String)
    (doc : FileDocument) (embedded : List TextChunk) (s : Store)
    (hdocid : doc.id = docId) (howner : doc.ownerId = username) (hname : doc.name = filename)
    (hdocfresh : ¬ docId ∈ s.documents.map (fun d => d.id))
    (hvecdoc : ∀ v ∈ s.vectors, v.documentId ≠ docId)
    (hembdoc : ∀ c ∈ embedded, c.documentId = docId)
    (hembfresh : ∀ c ∈ embedded, ¬ c.id ∈ s.vectors.map (fun v => v.id))
    (hnodup : (embedded.map (fun c => c.id)).Nodup) :
    (saveDocument doc embedded (deleteDocumentsByName username filename s)).documents.filter
        (fun d => decide (d.ownerId = username ∧ d.name = filename)) = [doc] ∧
    (saveDocument doc embedded (deleteDocumentsByName username filename s)).vectors.filter
        (fun v => decide (v.documentId = docId)) = embedded ∧
    (∀ d ∈ s.documents, d.ownerId = username → d.name = filename →
      (saveDocument doc embedded (deleteDocumentsByName username filename s)).vectors.filter
        (fun v => decide (v.documentId = d.id)) = []) := by
  have hs1 := foldl_deleteDocument_spec
    ((getDocumentsByUser username s).filter (fun d => decide (d.name = filename))) s
  have hs1d : (deleteDocumentsByName username filename s).documents
      = s.documents.filter (fun x => decide (¬ x.id ∈
          (((getDocumentsByUser username s).filter
            (fun d => decide (d.name = filename))).map (fun t => t.id)))) := by
    rw [deleteDocumentsByName]; exact hs1.1
  have hs1v : (deleteDocumentsByName username filename s).vectors
      = s.vectors.filter (fun x => decide (¬ x.documentId ∈
          (((getDocumentsByUser username s).filter
            (fun d => decide (d.name = filename))).map (fun t => t.id)))) := by
    rw [deleteDocumentsByName]; exact hs1.2
  have hmem_target : ∀ d ∈ s.documents, d.ownerId = username → d.name = filename →
      d.id ∈ (((getDocumentsByUser username s).filter
        (fun d => decide (d.name = filename))).map (fun t => t.id)) := by
    intro d hd ho hn
    exact List.mem_map_of_mem _
      (List.mem_filter.2 ⟨mem_getDocumentsByUser.2 ⟨hd, ho⟩, by simp [hn]⟩)
  have hdf1 : ¬ doc.id ∈ (deleteDocumentsByName username filename s).documents.map
      (fun d => d.id) := by
    rw [hs1d, hdocid]
    intro hmem
    obtain ⟨d, hd, hdid⟩ := List.mem_map.1 hmem
    exact hdocfresh (hdid ▸ List.mem_map_of_mem _ (List.mem_filter.1 hd).1)
  have hvf1 : ∀ c ∈ embedded, ¬ c.id ∈ (deleteDocumentsByName username filename s).vectors.map
      (fun v => v.id) := by
    intro c hc hmem
    obtain ⟨v, hv, hvid⟩ := List.mem_map.1 hmem
    rw [hs1v] at hv
    exact hembfresh c hc (hvid ▸ List.mem_map_of_mem _ (List.mem_filter.1 hv).1)
  have hdocs : (saveDocument doc embedded (deleteDocumentsByName username filename s)).documents
      = (deleteDocumentsByName username filename s).documents ++ [doc] := by
    rw [saveDocument]
    exact putDocument_of_not_mem hdf1
  have hvecs : (saveDocument doc embedded (deleteDocumentsByName username filename s)).vectors
      = (deleteDocumentsByName username filename s).vectors ++ embedded := by
    rw [saveDocument]
    exact foldl_putVector_of_fresh embedded _ hvf1 hnodup
  refine ⟨?_, ?_, ?_⟩
  · rw [hdocs, List.filter_append]
    have h1 : (deleteDocumentsByName username filename s).documents.filter
        (fun d => decide (d.ownerId = username ∧ d.name = filename)) = [] := by
      rw [List.filter_eq_nil_iff]
      intro d hd hpred
      rw [decide_eq_true_eq] at hpred
      rw [hs1d] at hd
      obtain ⟨hds, hcond⟩ := List.mem_filter.1 hd
      rw [decide_eq_true_eq] at hcond
      exact hcond (hmem_target d hds hpred.1 hpred.2)
    rw [h1]
    simp [howner, hname]
  · rw [hvecs, List.filter_append]
    have h1 : (deleteDocumentsByName username filename s).vectors.filter
        (fun v => decide (v.documentId = docId)) = [] := by
      rw [List.filter_eq_nil_iff]
      intro v hv hpred
      rw [decide_eq_true_eq] at hpred
      rw [hs1v] at hv
      exact hvecdoc v (List.mem_filter.1 hv).1 hpred
    have h2 : embedded.filter (fun v => decide (v.documentId = docId)) = embedded :=
      List.filter_eq_self.2 (fun c hc => by simp [hembdoc c hc])
    rw [h1, h2, List.nil_append]
  · intro d hd ho hn
    have hdne : d.id ≠ docId := by
      intro he
      exact hdocfresh (he ▸ List.mem_map_of_mem _ hd)
    rw [hvecs, List.filter_append]
    have h1 : (deleteDocumentsByName username filename s).vectors.filter
        (fun v => decide (v.documentId = d.id)) = [] := by
      rw [List.filter_eq_nil_iff]
      intro v hv hpred
      rw [decide_eq_true_eq] at hpred
      rw [hs1v] at hv
      obtain ⟨hvs, hcond⟩ := List.mem_filter.1 hv
      rw [decide_eq_true_eq] at hcond
      exact hcond (hpred ▸ hmem_target d hd ho hn)
    have h2 : embedded.filter (fun v => decide (v.documentId = d.id)) = [] := by
      rw [List.filter_eq_nil_iff]
      intro c hc hpred
      rw [decide_eq_true_eq] at hpred
      exact hdne (hpred.symm.trans (hembdoc c hc))
    rw [h1, h2]
    rfl

/-- C7: re-ingestion supersedes: after ingesting a document for an
(ownerId, name) into any prior store (with the keyed-store id uniqueness
environment expressed by the freshness hypotheses on the randomly generated
`docId`, and the pairwise-distinct ids of the freshly chunked batch), the
store contains exactly one document row for that (ownerId, name) — the new
one — its chunk set is exactly the new embedded batch, and no vector of any
prior version of that name survives. -/
theorem reingest_supersedes (username filename docId : String) (version now : Nat)
    (text : String) (responses : TextChunk → Nat → ApiOutcome) (s : Store)
    (hdocfresh : ¬ docId ∈ s.documents.map (fun d => d.id))
    (hvecdoc : ∀ v ∈ s.vectors, v.documentId ≠ docId)
    (hvecid : ∀ v ∈ s.vectors, ∀ j : Nat, v.id ≠ chunkId docId j)
    (hnodup : ((embedChunks responses ((chunkText text docId filename 600 100).getD [])).map
        (fun c => c.id)).Nodup) :
    (ingestFile username filename docId version text responses now s).documents.filter
        (fun d => decide (d.ownerId = username ∧ d.name = filename))
      = [⟨docId, username, filename, fileTypeOf filename, text, .ready, none, version, now⟩] ∧
    (ingestFile username filename docId version text responses now s).vectors.filter
        (fun v => decide (v.documentId = docId))
      = embedChunks responses ((chunkText text docId filename 600 100).getD []) ∧
    (∀ d ∈ s.documents, d.ownerId = username → d.name = filename →
      (ingestFile username filename docId version text responses now s).vectors.filter
        (fun v => decide (v.documentId = d.id)) = []) := by
  have hshape0 : ∀ c0 ∈ (chunkText text docId filename 600 100).getD [],
      c0.documentId = docId ∧ ∃ j, c0.id = chunkId docId j := by
    rcases hct : chunkText text docId filename 600 100 with _ | cs0
    · intro c0 hc0
      cases hc0
    · rw [Option.getD_some]
      intro c0 hc0
      have hloop : chunkLoop (normalize text.data) docId filename 600 100
          ((normalize text.data).length + 1) 0 0 = some cs0 := hct
      exact chunkLoop_chunks_shape (normalize text.data) docId filename 600 100
        _ 0 0 cs0 hloop c0 hc0
  have hshape : ∀ c ∈ embedChunks responses ((chunkText text docId filename 600 100).getD []),
      c.documentId = docId ∧ ∃ j, c.id = chunkId docId j := by
    intro c hc
    obtain ⟨c0, hc0, hid, hdid⟩ := embedChunks_shape responses _ c hc
    obtain ⟨hd0, j, hj⟩ := hshape0 c0 hc0
    exact ⟨hdid.trans hd0, j, hid.trans hj⟩
  exact replace_then_save_spec username filename docId
    ⟨docId, username, filename, fileTypeOf filename, text, .ready, none, version, now⟩
    (embedChunks responses ((chunkText text docId filename 600 100).getD [])) s
    rfl rfl rfl hdocfresh hvecdoc
    (fun c hc => (hshape c hc).1)
    (fun c hc hmem => by
      obtain ⟨j, hj⟩ := (hshape c hc).2
      obtain ⟨v, hv, hvid⟩ := List.mem_map.1 hmem
      exact hvecid v hv j (hvid.trans hj))
    hnodup

def wOldDoc : FileDocument :=
  { id := "old1", ownerId := "u", name := "a.txt", type := "TXT", content := "x",
    status := .ready, tokenCount := none, version := 1, timestamp := 0 }

def wOldVec : TextChunk :=
  { id := "old1-0", documentId := "old1", documentName := "a.txt", text := "x",
    embedding := some [1] }

theorem reingest_supersedes_witness :
    (¬ "d1" ∈ (Store.mk [wOldDoc] [wOldVec]).documents.map (fun d => d.id)) ∧
    ((ingestFile "u" "a.txt" "d1" 2 "hi" (fun _ _ => ApiOutcome.ok [1]) 5
        (Store.mk [wOldDoc] [wOldVec])).documents.filter
        (fun d => decide (d.ownerId = "u" ∧ d.name = "a.txt"))
      = [⟨"d1", "u", "a.txt", fileTypeOf "a.txt", "hi", .ready, none, 2, 5⟩] ∧
    (ingestFile "u" "a.txt" "d1" 2 "hi" (fun _ _ => ApiOutcome.ok [1]) 5
        (Store.mk [wOldDoc] [wOldVec])).vectors.filter
        (fun v => decide (v.documentId = "d1"))
      = embedChunks (fun _ _ => ApiOutcome.ok [1])
          ((chunkText "hi" "d1" "a.txt" 600 100).getD []) ∧
    (∀ d ∈ (Store.mk [wOldDoc] [wOldVec]).documents, d.ownerId = "u" → d.name = "a.txt" →
      (ingestFile "u" "a.txt" "d1" 2 "hi" (fun _ _ => ApiOutcome.ok [1]) 5
          (Store.mk [wOldDoc] [wOldVec])).vectors.filter
        (fun v => decide (v.documentId = d.id)) = [])) := by
  have hch : chunkText "hi" "d1" "a.txt" 600 100
      = some [⟨"d1-0", "d1", "a.txt", "hi", none⟩] := by decide
  have hbl : isBlank "hi" = false := by decide
  have hemb : embedChunks (fun _ _ => ApiOutcome.ok [1])
      ((chunkText "hi" "d1" "a.txt" 600 100).getD [])
      = [⟨"d1-0", "d1", "a.txt", "hi", some [1]⟩] := by
    rw [hch, Option.getD_some]
    simp [embedChunks, generateEmbedding, hbl, genLoop_eq]
  have hvecid : ∀ v ∈ (Store.mk [wOldDoc] [wOldVec]).vectors, ∀ j : Nat,
      v.id ≠ chunkId "d1" j := by
    intro v hv j heq
    rcases List.mem_singleton.1 hv with rfl
    have h0 : (wOldVec.id).data.head? = (chunkId "d1" j).data.head? := by rw [heq]
    have h1 : (wOldVec.id).data.head? = some 'o' := rfl
    have h2 : (chunkId "d1" j).data.head? = some 'd' := rfl
    rw [h1, h2] at h0
    cases h0
  refine ⟨by decide, reingest_supersedes "u" "a.txt" "d1" 2 5 "hi"
    (fun _ _ => ApiOutcome.ok [1]) (Store.mk [wOldDoc] [wOldVec])
    (by decide) (by decide) hvecid ?_⟩
  rw [hemb]
  decide

end RagCore
